import Mathlib

/-!
Verification of the neurokernel path-like selector engine (`plsel.py`) and
the module marshaling layer (`core.py`).

The Python data model after parsing: a *parse list* is a list of branches,
each branch a list of tokens; a token is the wildcard `'*'`, a literal label
(string or non-negative integer), a set of labels, or a half-open integer
interval `(start, stop)` where `stop` may be `np.inf`.
-/

set_option autoImplicit false

namespace Neurokernel

/-- A concrete label at one level of a hierarchical identifier: a string or a
non-negative integer (the tokenizer only produces `\d+` integers). -/
inductive Label where
  | str (s : String)
  | num (n : Nat)
  deriving DecidableEq, Repr

/-- A level matcher token as produced by the ply grammar in `plsel.py`:
`'*'` (ASTERISK), a literal (INTEGER/STRING), a set (INTEGER_SET/STRING_SET),
or an interval `(start, stop)` with `stop = none` standing for `np.inf`. -/
inductive Token where
  | wild
  | lit (l : Label)
  | set (ls : List Label)
  | ivl (start : Nat) (stop : Option Nat)
  deriving DecidableEq, Repr

/-- One disjunct of a selector: an ordered list of level matchers. -/
abbrev Branch := List Token

/-- A parsed selector: list of branches (`parse_list` in the source). -/
abbrev ParseList := List Branch

/-- A concrete hierarchical identifier: one label per level. -/
abbrev Ident := List Label

/-- Python slicing `l[start:stop]` for non-negative bounds, `stop = none`
meaning an omitted bound. -/
def pySlice {α : Type} (l : List α) (start : Nat) (stop : Option Nat) : List α :=
  (match stop with
   | none => l
   | some s => l.take s).drop start

/-- Whether a non-wildcard token accepts a concrete label, following the
comparisons in `PathLikeSelector._select_test`: a literal requires equality,
a set requires membership, an interval `(lo, hi)` requires `lo ≤ v < hi`
(under Python 2 mixed-type comparison a string label is never inside a
numeric interval, since `str < float` is always false there). -/
def tokenAccepts : Token → Label → Bool
  | .wild, _ => true
  | .lit l, v => v == l
  | .set ls, v => ls.contains v
  | .ivl lo hi, .num n => lo ≤ n && (match hi with
      | none => true
      | some s => n < s)
  | .ivl _ _, .str _ => false

/-- One iteration of the token loop of `_select_test` at index `i` of the
sliced row: the wildcard continues without reading the row; every other
token reads `row_sub[i]` (an out-of-range read is a Python `IndexError`,
modelled as `none`). -/
def stepToken (rs : List Label) (i : Nat) : Token → Option Bool
  | .wild => some true
  | t => rs[i]?.map (tokenAccepts t)

/-- The inner `for token_list` loop body of `_select_test`: test the tokens of
one branch from index `i` on, short-circuiting on the first rejection
(`break`), raising (`none`) on an out-of-range read. -/
def branchTest (rs : List Label) : Nat → Branch → Option Bool
  | _, [] => some true
  | i, t :: ts =>
    match stepToken rs i t with
    | none => none
    | some false => some false
    | some true => branchTest rs (i + 1) ts

/-- The outer loop of `_select_test`: branches are tried in order; the first
accepting branch returns `True`, exhausting all branches returns `False`. -/
def listTest (rs : List Label) : ParseList → Option Bool
  | [] => some false
  | b :: bs =>
    match branchTest rs 0 b with
    | none => none
    | some true => some true
    | some false => listTest rs bs

/-- `PathLikeSelector._select_test(row, parse_list, start, stop)`: slice the
row, then run the branch loop. -/
def selectTest (row : Ident) (pl : ParseList) (start : Nat) (stop : Option Nat) :
    Option Bool :=
  listTest (pySlice row start stop) pl

/-- Declarative acceptance of one level, as worded in the specification:
wildcard accepts anything, literal requires equality, set requires
membership, interval requires `lo ≤ value < hi` (half-open). -/
def tokenSpec : Token → Label → Prop
  | .wild, _ => True
  | .lit l, v => v = l
  | .set ls, v => v ∈ ls
  | .ivl lo hi, v => ∃ n, v = Label.num n ∧ lo ≤ n ∧ ∀ s, hi = some s → n < s

/-- Declarative acceptance of a branch on the tested sub-range: every matcher
accepts the element at its own position; levels beyond the branch's length
are not checked (prefix semantics). -/
def branchSpec (rs : List Label) (b : Branch) : Prop :=
  List.Forall₂ tokenSpec b (rs.take b.length)

theorem tokenAccepts_iff (t : Token) (v : Label) :
    tokenAccepts t v = true ↔ tokenSpec t v := by
  cases t with
  | wild => simp [tokenAccepts, tokenSpec]
  | lit l => simp [tokenAccepts, tokenSpec]
  | set ls => simp [tokenAccepts, tokenSpec]
  | ivl lo hi =>
    cases v with
    | str s =>
      simp only [tokenAccepts, tokenSpec]
      constructor
      · intro h; cases h
      · rintro ⟨n, hn, -⟩; cases hn
    | num n =>
      cases hi with
      | none => simp [tokenAccepts, tokenSpec]
      | some s => simp [tokenAccepts, tokenSpec]

theorem stepToken_of_get (rs : List Label) (i : Nat) (v : Label)
    (hv : rs[i]? = some v) (t : Token) :
    stepToken rs i t = some (tokenAccepts t v) := by
  cases t <;> simp [stepToken, hv, tokenAccepts]

theorem branchTest_cons (rs : List Label) (i : Nat) (t : Token) (ts : List Token) :
    branchTest rs i (t :: ts) =
      match stepToken rs i t with
      | none => none
      | some false => some false
      | some true => branchTest rs (i + 1) ts := rfl

/-- On rows long enough for the branch, `branchTest` never raises and computes
the pointwise conjunction of the matchers against the row tail. -/
theorem branchTest_eq (rs : List Label) (b : Branch) (i : Nat)
    (h : i + b.length ≤ rs.length) :
    branchTest rs i b =
      some ((b.zip (rs.drop i)).all fun p => tokenAccepts p.1 p.2) := by
  induction b generalizing i with
  | nil => simp [branchTest]
  | cons t ts ih =>
    have hi : i < rs.length := by
      have := h; simp only [List.length_cons] at this; omega
    have hv : rs[i]? = some rs[i] := List.getElem?_eq_getElem hi
    have hdrop : rs.drop i = rs[i] :: rs.drop (i + 1) := List.drop_eq_getElem_cons hi
    rw [branchTest_cons, stepToken_of_get rs i rs[i] hv t, hdrop,
      List.zip_cons_cons, List.all_cons]
    cases hta : tokenAccepts t rs[i] with
    | false => rfl
    | true => exact ih (i + 1) (by simp only [List.length_cons] at h; omega)

/-- Pointwise boolean acceptance of a branch agrees with the declarative
prefix semantics `branchSpec`. -/
theorem zip_all_iff_branchSpec (rs : List Label) (b : Branch)
    (h : b.length ≤ rs.length) :
    ((b.zip rs).all fun p => tokenAccepts p.1 p.2) = true ↔ branchSpec rs b := by
  unfold branchSpec
  induction b generalizing rs with
  | nil => simp [List.Forall₂]
  | cons t ts ih =>
    cases rs with
    | nil => simp at h
    | cons v vs =>
      simp only [List.zip_cons_cons, List.all_cons, Bool.and_eq_true,
        List.length_cons, List.take_succ_cons]
      rw [List.forall₂_cons]
      have hlen : ts.length ≤ vs.length := by
        simpa using h
      rw [ih vs hlen, tokenAccepts_iff]

theorem listTest_cons (rs : List Label) (b : Branch) (bs : List Branch) :
    listTest rs (b :: bs) =
      match branchTest rs 0 b with
      | none => none
      | some true => some true
      | some false => listTest rs bs := rfl

/-- Under the fit hypothesis, `listTest` never raises and computes the
boolean disjunction of the branch tests. -/
theorem listTest_eq (rs : List Label) (pl : ParseList)
    (h : ∀ b ∈ pl, b.length ≤ rs.length) :
    listTest rs pl =
      some (pl.any fun b => (b.zip rs).all fun p => tokenAccepts p.1 p.2) := by
  induction pl with
  | nil => simp [listTest]
  | cons b bs ih =>
    have hb : b.length ≤ rs.length := h b (List.mem_cons_self b bs)
    have hbt := branchTest_eq rs b 0 (by simpa using hb)
    rw [List.drop_zero] at hbt
    rw [listTest_cons, hbt]
    cases hba : (b.zip rs).all fun p => tokenAccepts p.1 p.2 with
    | true => simp [hba]
    | false =>
      have := ih fun b2 hb2 => h b2 (List.mem_cons_of_mem b hb2)
      simp [hba, this]

theorem pySlice_zero_none {α : Type} (l : List α) : pySlice l 0 none = l := rfl

instance tokenSpecDecidable (t : Token) (v : Label) : Decidable (tokenSpec t v) :=
  decidable_of_iff (tokenAccepts t v = true) (tokenAccepts_iff t v)

instance branchSpecDecidable (rs : List Label) (b : Branch) :
    Decidable (branchSpec rs b) :=
  inferInstanceAs (Decidable (List.Forall₂ tokenSpec b (rs.take b.length)))

/-- Claim C5: for every concrete identifier tuple, parsed selector and
sub-range `[start, stop)` whose branches fit inside the tested sub-range, the
membership test `_select_test` accepts the tuple iff some branch accepts it,
a branch accepting iff each of its level matchers accepts the tuple element
at its position (wildcard accepts anything, literal requires equality, set
requires membership, interval requires `lo ≤ value < hi`), a branch shorter
than the sub-range being checked only on its defined prefix. -/
theorem claim_C5_evaluator (row : Ident) (pl : ParseList) (start : Nat)
    (stop : Option Nat)
    (hfit : ∀ b ∈ pl, b.length ≤ (pySlice row start stop).length) :
    selectTest row pl start stop = some true ↔
      ∃ b ∈ pl, branchSpec (pySlice row start stop) b := by
  unfold selectTest
  rw [listTest_eq _ _ hfit]
  simp only [Option.some.injEq, List.any_eq_true]
  constructor
  · rintro ⟨b, hb, hall⟩
    exact ⟨b, hb, (zip_all_iff_branchSpec _ b (hfit b hb)).mp hall⟩
  · rintro ⟨b, hb, hspec⟩
    exact ⟨b, hb, (zip_all_iff_branchSpec _ b (hfit b hb)).mpr hspec⟩

def c5Row : Ident := [.str "foo", .str "qux", .num 1]

def c5PL : ParseList :=
  [[.lit (.str "bar"), .set [.str "qux", .str "mof"]],
   [.wild, .lit (.str "qux"), .ivl 0 (some 5)]]

theorem claim_C5_evaluator_witness :
    (∀ b ∈ c5PL, b.length ≤ (pySlice c5Row 0 none).length) ∧
      (selectTest c5Row c5PL 0 none = some true ↔
        ∃ b ∈ c5PL, branchSpec (pySlice c5Row 0 none) b) :=
  ⟨by decide, claim_C5_evaluator c5Row c5PL 0 none (by decide)⟩

/-- Whether a token is the wildcard (textually a `'*'` in the selector). -/
def isWild : Token → Bool
  | .wild => true
  | _ => false

/-- Whether a token is an interval with omitted stop (`[n:]` or `[:]`), whose
textual form contains the substring `:]` rejected by `make_index`. -/
def isUnbounded : Token → Bool
  | .ivl _ none => true
  | _ => false

def hasWild (pl : ParseList) : Bool := pl.any (·.any isWild)

def hasUnbounded (pl : ParseList) : Bool := pl.any (·.any isUnbounded)

/-- Literal elements of one token as enumerated by `make_index`: an interval
becomes `range(start, stop)`, a set stays, a literal becomes a singleton. -/
def tokenIdxElems : Token → List Label
  | .wild => []
  | .lit l => [l]
  | .set ls => ls
  | .ivl a (some b) => (List.range' a (b - a)).map Label.num
  | .ivl _ none => []

/-- Cartesian product across the levels of one branch, the rightmost level
varying fastest (the row order of `pandas.MultiIndex.from_product`). -/
def branchProduct : List (List Label) → List Ident
  | [] => [[]]
  | l :: rest => l.flatMap fun x => (branchProduct rest).map (x :: ·)

/-- Expansion of one branch into its concrete identifiers. -/
def expandBranch (b : Branch) : List Ident := branchProduct (b.map tokenIdxElems)

/-- `PathLikeSelector.make_index(selector)`: rejects wildcards and unbounded
intervals (the two `re.search` assertions on the selector string), requires
at least two levels per branch (`MultiIndex.from_product` of a single list is
a plain `Index`, failing the type assertion) and one common level count
across branches, then appends the per-branch expansions in branch order.
No uniqueness check is performed on the resulting identifiers. -/
def makeIndex (pl : ParseList) : Option (List Ident) :=
  match pl with
  | [] => none
  | b :: bs =>
    if hasWild (b :: bs) || hasUnbounded (b :: bs) then none
    else if (b :: bs).any fun b2 => decide (b2.length < 2) then none
    else if bs.all fun b2 => b2.length == b.length then
      some ((b :: bs).flatMap expandBranch)
    else none

/-- The port-to-position table owned by a `PortMapper`: the buffer, the
identifier/position pairs of the pandas Series `portmap`, and the level
count of its MultiIndex. -/
structure PortMapper where
  data : List Int
  portmap : List (Ident × Nat)
  depth : Nat
  deriving DecidableEq, Repr

/-- `PortMapper.__init__(data, selectors)` with no explicit `idx` argument:
build one index per selector, append them in call order, and require the
total identifier count to equal the buffer length (the pandas index
assignment's length check); positions are `arange(len(data))` in table
order. `depth` is the level count of the resulting MultiIndex, i.e. the
common branch length of the selectors. -/
def portMapperInit (data : List Int) (sels : List ParseList) : Option PortMapper :=
  match sels with
  | [] => none
  | s0 :: rest =>
    match (s0 :: rest).mapM makeIndex with
    | none => none
    | some idxs =>
      let ids := idxs.flatten
      if ids.length = data.length then
        some ⟨data, ids.zip (List.range data.length),
          ((s0.head?.map List.length).getD 0)⟩
      else none

/-- Row filter of `select` over the port map, propagating a raised
`_select_test` (`none`). -/
def filterTest (pl : ParseList) (start : Nat) (stop : Option Nat) :
    List (Ident × Nat) → Option (List (Ident × Nat))
  | [] => some []
  | r :: rs =>
    match selectTest r.1 pl start stop with
    | none => none
    | some true => (filterTest pl start stop rs).map (r :: ·)
    | some false => filterTest pl start stop rs

/-- `PathLikeSelector.select(df, selector, start, stop)` over the port map:
the guard compares the *number of branches* `len(parse_list)` against the
level count of `df.index.names[start:stop]`, then filters the rows by
`_select_test` in table order. -/
def dfSelect (depth : Nat) (tbl : List (Ident × Nat)) (pl : ParseList)
    (start : Nat) (stop : Option Nat) : Option (List (Ident × Nat)) :=
  if pl.length > (pySlice (List.range depth) start stop).length then none
  else filterTest pl start stop tbl

/-- The position query underlying `PortMapper.get`/`set`: the values of the
selected rows of the `portmap` Series, in table order. -/
def pmResolve (pm : PortMapper) (pl : ParseList) : Option (List Nat) :=
  (dfSelect pm.depth pm.portmap pl 0 none).map (List.map Prod.snd)

/-- `PortMapper.get(selector)`: `self.data[positions]`; an out-of-range
position in the fancy index is an `IndexError`. -/
def pmGet (pm : PortMapper) (pl : ParseList) : Option (List Int) :=
  match pmResolve pm pl with
  | none => none
  | some ps => ps.mapM fun i => pm.data[i]?

/-- `PortMapper.set(selector, v)` with a scalar value: broadcast `v` into the
buffer at every selected position; the fancy-index assignment
`self.data[positions] = v` raises `IndexError` if any position is out of
range. -/
def pmSetScalar (pm : PortMapper) (pl : ParseList) (v : Int) : Option PortMapper :=
  match pmResolve pm pl with
  | none => none
  | some ps =>
    if ps.all (· < pm.data.length) then
      some { pm with
        data := (List.range pm.data.length).map fun i =>
          if i ∈ ps then v else pm.data.getD i 0 }
    else none

/-- Python `max(map(len, parse_list))`: raises on an empty list. -/
def maxLevels (pl : ParseList) : Option Nat :=
  match pl with
  | [] => none
  | b :: bs => some ((bs.map List.length).foldl Nat.max b.length)

/-- Row filter of `get_tuples` over the bare index tuples. -/
def filterIdents (pl : ParseList) (start : Nat) (stop : Option Nat) :
    List Ident → Option (List Ident)
  | [] => some []
  | r :: rs =>
    match selectTest r pl start stop with
    | none => none
    | some true => (filterIdents pl start stop rs).map (r :: ·)
    | some false => filterIdents pl start stop rs

/-- `PathLikeSelector.get_tuples(df, selector, start, stop)`: the guard here
compares the selector's *maximum level count* against the level count of
`df.index.names[start:stop]`, then filters the index tuples. -/
def getTuples (depth : Nat) (tbl : List Ident) (pl : ParseList)
    (start : Nat) (stop : Option Nat) : Option (List Ident) :=
  match maxLevels pl with
  | none => none
  | some m =>
    if m > (pySlice (List.range depth) start stop).length then none
    else filterIdents pl start stop tbl

theorem mem_branchProduct {lls : List (List Label)} {pid : Ident}
    (h : pid ∈ branchProduct lls) : List.Forall₂ (· ∈ ·) pid lls := by
  induction lls generalizing pid with
  | nil =>
    simp only [branchProduct, List.mem_singleton] at h
    subst h; exact List.Forall₂.nil
  | cons l rest ih =>
    simp only [branchProduct, List.mem_flatMap, List.mem_map] at h
    obtain ⟨x, hx, pid', hpid', rfl⟩ := h
    exact List.Forall₂.cons hx (ih hpid')

/-- A non-wildcard, bounded token accepts every one of its own enumerated
literal elements. -/
theorem tokenAccepts_of_mem_idxElems {t : Token} {v : Label}
    (hw : isWild t = false) (hu : isUnbounded t = false)
    (hv : v ∈ tokenIdxElems t) : tokenAccepts t v = true := by
  cases t with
  | wild => simp [isWild] at hw
  | lit l => simp only [tokenIdxElems, List.mem_singleton] at hv
             simp [tokenAccepts, hv]
  | set ls =>
    simp only [tokenIdxElems] at hv
    simp [tokenAccepts, hv]
  | ivl a b =>
    cases b with
    | none => simp [isUnbounded] at hu
    | some s =>
      simp only [tokenIdxElems, List.mem_map] at hv
      obtain ⟨n, hn, rfl⟩ := hv
      rw [List.mem_range'_1] at hn
      simp only [tokenAccepts, Bool.and_eq_true, decide_eq_true_eq]
      omega

/-- Every identifier produced by expanding a fully-resolvable branch is
accepted pointwise by that branch. -/
theorem zip_all_of_mem_expand {b : Branch} {pid : Ident}
    (hw : ∀ t ∈ b, isWild t = false) (hu : ∀ t ∈ b, isUnbounded t = false)
    (hmem : pid ∈ expandBranch b) :
    ((b.zip pid).all fun p => tokenAccepts p.1 p.2) = true := by
  have hf : List.Forall₂ (· ∈ ·) pid (b.map tokenIdxElems) :=
    mem_branchProduct hmem
  clear hmem
  induction b generalizing pid with
  | nil => simp
  | cons t ts ih =>
    rw [List.map_cons] at hf
    cases hf with
    | cons hv hrest =>
      rename_i v vs
      simp only [List.zip_cons_cons, List.all_cons, Bool.and_eq_true]
      refine ⟨tokenAccepts_of_mem_idxElems
          (hw t (List.mem_cons_self t ts)) (hu t (List.mem_cons_self t ts)) hv, ?_⟩
      exact ih (fun t2 h2 => hw t2 (List.mem_cons_of_mem t h2))
        (fun t2 h2 => hu t2 (List.mem_cons_of_mem t h2)) hrest

theorem length_of_mem_expand {b : Branch} {pid : Ident}
    (hmem : pid ∈ expandBranch b) : pid.length = b.length := by
  have hf := mem_branchProduct hmem
  have := List.Forall₂.length_eq hf
  simpa using this

theorem nested_any_eq_false {f : Token → Bool} {pl : ParseList}
    (h : pl.any (·.any f) = false) : ∀ b ∈ pl, ∀ t ∈ b, f t = false := by
  intro b hb t ht
  by_contra hc
  have hft : f t = true := by revert hc; cases f t <;> simp
  have : pl.any (·.any f) = true := by
    rw [List.any_eq_true]
    exact ⟨b, hb, by rw [List.any_eq_true]; exact ⟨t, ht, hft⟩⟩
  rw [h] at this
  cases this

/-- Inversion of a successful `make_index`: no wildcard or unbounded token,
at least two levels per branch, a nonempty branch list with a common branch
length, and the result is the concatenation of the branch expansions. -/
theorem makeIndex_eq_some {pl : ParseList} {ids : List Ident}
    (h : makeIndex pl = some ids) :
    (∀ b ∈ pl, ∀ t ∈ b, isWild t = false) ∧
      (∀ b ∈ pl, ∀ t ∈ b, isUnbounded t = false) ∧
      (∀ b ∈ pl, 2 ≤ b.length) ∧
      (∃ b0 bs, pl = b0 :: bs ∧ ∀ b ∈ pl, b.length = b0.length) ∧
      ids = pl.flatMap expandBranch := by
  cases pl with
  | nil => exact Option.noConfusion h
  | cons b0 bs =>
    simp only [makeIndex] at h
    by_cases h1 : (hasWild (b0 :: bs) || hasUnbounded (b0 :: bs)) = true
    · rw [if_pos h1] at h; cases h
    · rw [if_neg h1] at h
      have hw : hasWild (b0 :: bs) = false := by
        revert h1; cases hhw : hasWild (b0 :: bs) <;> simp
      have hu : hasUnbounded (b0 :: bs) = false := by
        revert h1; cases hhu : hasUnbounded (b0 :: bs) <;> simp
      by_cases h2 : ((b0 :: bs).any fun b => decide (b.length < 2)) = true
      · rw [if_pos h2] at h; cases h
      · rw [if_neg h2] at h
        have hlen2 : ∀ b ∈ b0 :: bs, 2 ≤ b.length := by
          intro b hb
          by_contra hc
          have : ((b0 :: bs).any fun b => decide (b.length < 2)) = true := by
            rw [List.any_eq_true]
            refine ⟨b, hb, ?_⟩
            simp only [decide_eq_true_eq]
            omega
          exact h2 this
        by_cases h3 : (bs.all fun b2 => b2.length == b0.length) = true
        · rw [if_pos h3] at h
          refine ⟨nested_any_eq_false hw, nested_any_eq_false hu, hlen2,
            ⟨b0, bs, rfl, ?_⟩, (Option.some.inj h).symm⟩
          intro b hb
          rcases List.mem_cons.mp hb with rfl | hb2
          · rfl
          · have := (List.all_eq_true.mp h3) b hb2
            simpa using this
        · rw [if_neg h3] at h; cases h

theorem filterTest_cons (pl : ParseList) (start : Nat) (stop : Option Nat)
    (r : Ident × Nat) (rs : List (Ident × Nat)) :
    filterTest pl start stop (r :: rs) =
      match selectTest r.1 pl start stop with
      | none => none
      | some true => (filterTest pl start stop rs).map (r :: ·)
      | some false => filterTest pl start stop rs := rfl

/-- When every row of the table passes `_select_test`, `select` keeps the
whole table in order. -/
theorem filterTest_all_true (pl : ParseList) (tbl : List (Ident × Nat))
    (h : ∀ r ∈ tbl, selectTest r.1 pl 0 none = some true) :
    filterTest pl 0 none tbl = some tbl := by
  induction tbl with
  | nil => rfl
  | cons r rs ih =>
    rw [filterTest_cons, h r (List.mem_cons_self r rs),
      ih fun r2 h2 => h r2 (List.mem_cons_of_mem r h2)]
    rfl

/-- Every identifier of a successfully built index passes `_select_test`
against the selector it was built from. -/
theorem makeIndex_row_matches {pl : ParseList} {ids : List Ident}
    (hmi : makeIndex pl = some ids) :
    ∀ pid ∈ ids, selectTest pid pl 0 none = some true := by
  obtain ⟨hw, hu, -, ⟨b0, bs, rfl, hcommon⟩, hids⟩ := makeIndex_eq_some hmi
  intro pid hpid
  rw [hids] at hpid
  rw [List.mem_flatMap] at hpid
  obtain ⟨b, hb, hexp⟩ := hpid
  have hlenb : pid.length = b.length := length_of_mem_expand hexp
  have hfit : ∀ b2 ∈ b0 :: bs, b2.length ≤ pid.length := by
    intro b2 hb2
    rw [hlenb, hcommon b hb, hcommon b2 hb2]
  show listTest (pySlice pid 0 none) (b0 :: bs) = some true
  rw [pySlice_zero_none, listTest_eq pid (b0 :: bs) hfit]
  congr 1
  rw [List.any_eq_true]
  exact ⟨b, hb, zip_all_of_mem_expand (hw b hb) (hu b hb) hexp⟩

/-- Claim C1 (amended): building a `PortMapper` over a buffer of length `N`
from a fully resolvable selector whose expansion yields the `N` identifiers
and querying it with the same selector returns positions `0..N-1` in table
order, provided the selector's branch count does not exceed the identifier
depth (the guard of `select` compares the branch count with the MultiIndex
level count). -/
theorem claim_C1_roundtrip (data : List Int) (pl : ParseList) (pm : PortMapper)
    (hinit : portMapperInit data [pl] = some pm)
    (hbr : pl.length ≤ pm.depth) :
    pmResolve pm pl = some (List.range data.length) := by
  simp only [portMapperInit] at hinit
  cases hmi : makeIndex pl with
  | none => rw [List.mapM_cons, List.mapM_nil, hmi] at hinit; cases hinit
  | some ids =>
    rw [List.mapM_cons, List.mapM_nil, hmi] at hinit
    simp only [Option.bind_eq_bind, Option.some_bind, Option.pure_def,
      List.flatten_cons, List.flatten_nil, List.append_nil] at hinit
    by_cases hlen : ids.length = data.length
    · rw [if_pos hlen] at hinit
      have hpm := (Option.some.inj hinit).symm
      obtain ⟨hw, hu, -, ⟨b0, bs, hplshape, hcommon⟩, hids⟩ := makeIndex_eq_some hmi
      have hdepth : pm.depth = b0.length := by
        rw [hpm, hplshape]; rfl
      have hmap : pm.portmap = ids.zip (List.range data.length) := by
        rw [hpm]
      have hdata : pm.data = data := by rw [hpm]
      unfold pmResolve dfSelect
      rw [hdepth, hmap]
      have hguard : ¬ pl.length > (pySlice (List.range b0.length) 0 none).length := by
        rw [pySlice_zero_none, List.length_range]
        omega
      rw [if_neg hguard]
      rw [filterTest_all_true pl (ids.zip (List.range data.length)) fun r hr => by
        exact makeIndex_row_matches hmi r.1 (List.of_mem_zip hr).1]
      rw [Option.map_some']
      congr 1
      exact List.map_snd_zip ids (List.range data.length)
        (by rw [List.length_range, hlen])
    · rw [if_neg hlen] at hinit; cases hinit

def c1BadPL : ParseList :=
  [[.lit (.str "a"), .lit (.str "x")],
   [.lit (.str "b"), .lit (.str "x")],
   [.lit (.str "c"), .lit (.str "x")]]

def c1BadPM : PortMapper :=
  ⟨[10, 20, 30],
   [([.str "a", .str "x"], 0), ([.str "b", .str "x"], 1), ([.str "c", .str "x"], 2)],
   2⟩

/-- Claim C1 (counterexample): a fully resolvable three-branch selector over
two-level identifiers builds a three-port mapper, yet querying the mapper
with the same selector raises (`select`'s guard compares the *branch count*
3 against the index level count 2) instead of returning `[0, 1, 2]`. -/
theorem claim_C1_counterexample :
    portMapperInit [10, 20, 30] [c1BadPL] = some c1BadPM ∧
      pmResolve c1BadPM c1BadPL = none ∧
      pmResolve c1BadPM c1BadPL ≠ some (List.range 3) := by
  refine ⟨by decide, by decide, by decide⟩

def c1GoodPL : ParseList :=
  [[.lit (.str "a"), .lit (.num 0)], [.lit (.str "a"), .lit (.num 1)]]

def c1GoodPM : PortMapper :=
  ⟨[7, 8], [([.str "a", .num 0], 0), ([.str "a", .num 1], 1)], 2⟩

theorem claim_C1_roundtrip_witness :
    pmResolve c1GoodPM c1GoodPL = some (List.range 2) :=
  claim_C1_roundtrip [7, 8] c1GoodPL c1GoodPM (by decide) (by decide)

/-- Claim C2 (amended): `make_index` performs no uniqueness check: any
structurally well-formed, fully resolvable selector succeeds and yields the
plain concatenation of its branch expansions, repeated identifiers
included. -/
theorem claim_C2_no_duplicate_check (b0 : Branch) (bs : List Branch)
    (hw : hasWild (b0 :: bs) = false) (hu : hasUnbounded (b0 :: bs) = false)
    (h2 : ∀ b ∈ b0 :: bs, 2 ≤ b.length)
    (hlen : ∀ b ∈ bs, b.length = b0.length) :
    makeIndex (b0 :: bs) = some ((b0 :: bs).flatMap expandBranch) := by
  simp only [makeIndex]
  rw [if_neg (by rw [hw, hu]; simp)]
  rw [if_neg (by
    intro hc
    rw [List.any_eq_true] at hc
    obtain ⟨b, hb, hlt⟩ := hc
    rw [decide_eq_true_eq] at hlt
    exact absurd (h2 b hb) (by omega))]
  rw [if_pos (by
    rw [List.all_eq_true]
    intro b hb
    rw [beq_iff_eq]
    exact hlen b hb)]

def c2DupPL : ParseList :=
  [[.lit (.str "a"), .lit (.str "b")], [.lit (.str "a"), .lit (.str "b")]]

def c2Sel : ParseList := [[.lit (.str "a"), .lit (.str "b")]]

def c2DupPM : PortMapper :=
  ⟨[5, 7], [([.str "a", .str "b"], 0), ([.str "a", .str "b"], 1)], 2⟩

/-- Claim C2 (counterexample): a selector expanding twice to the identifier
`/a/b` passes `make_index` with the duplicate retained, and a `PortMapper`
built from two overlapping selectors is likewise constructed without any
error: no DuplicateKey failure path exists. -/
theorem claim_C2_counterexample :
    makeIndex c2DupPL = some [[.str "a", .str "b"], [.str "a", .str "b"]] ∧
      portMapperInit [5, 7] [c2Sel, c2Sel] = some c2DupPM := by
  refine ⟨by decide, by decide⟩

theorem claim_C2_no_duplicate_check_witness :
    makeIndex c2DupPL = some (c2DupPL.flatMap expandBranch) :=
  claim_C2_no_duplicate_check [.lit (.str "a"), .lit (.str "b")]
    [[.lit (.str "a"), .lit (.str "b")]] (by decide) (by decide) (by decide)
    (by decide)

/-- Consistency of a mapper's table with its buffer and index depth: every
identifier has the index's level count and every position is inside the
buffer. `portMapperInit` always establishes this. -/
def wellFormed (pm : PortMapper) : Prop :=
  ∀ r ∈ pm.portmap, r.1.length = pm.depth ∧ r.2 < pm.data.length

instance wellFormedDecidable (pm : PortMapper) : Decidable (wellFormed pm) :=
  decidable_of_iff
    (∀ r ∈ pm.portmap, r.1.length = pm.depth ∧ r.2 < pm.data.length) Iff.rfl

theorem mapM_getElem_some {data : List Int} {ps : List Nat}
    (h : ∀ i ∈ ps, i < data.length) :
    ∃ vs, (ps.mapM fun i => data[i]?) = some vs := by
  induction ps with
  | nil => exact ⟨[], rfl⟩
  | cons p pr ih =>
    obtain ⟨vs, hvs⟩ := ih fun i hi => h i (List.mem_cons_of_mem p hi)
    refine ⟨data.get ⟨p, h p (List.mem_cons_self p pr)⟩ :: vs, ?_⟩
    rw [List.mapM_cons, List.getElem?_eq_getElem (h p (List.mem_cons_self p pr)), hvs]
    rfl

/-- On rows long enough for every non-wildcard matcher of the branch (a
wildcard beyond the row is simply skipped by its `continue`), `branchTest`
never raises and computes the pointwise conjunction of the matchers over
the zipped prefix. -/
theorem branchTest_eq_of_fits (rs : List Label) (b : Branch) (i : Nat)
    (h : ∀ j, j < b.length → isWild (b.getD j .wild) = false →
      i + j < rs.length) :
    branchTest rs i b =
      some ((b.zip (rs.drop i)).all fun p => tokenAccepts p.1 p.2) := by
  induction b generalizing i with
  | nil => simp [branchTest]
  | cons t ts ih =>
    have hshift : ∀ j, j < ts.length → isWild (ts.getD j .wild) = false →
        (i + 1) + j < rs.length := by
      intro j hj hnw
      have := h (j + 1) (by simp only [List.length_cons]; omega)
        (by simpa using hnw)
      omega
    by_cases hw : isWild t = true
    · have ht : t = .wild := by
        cases t with
        | wild => rfl
        | lit l => simp [isWild] at hw
        | set ls => simp [isWild] at hw
        | ivl a s => simp [isWild] at hw
      subst ht
      rw [branchTest_cons]
      show branchTest rs (i + 1) ts = _
      rw [ih (i + 1) hshift]
      cases hdrop : rs.drop i with
      | nil =>
        have hle : rs.length ≤ i := by
          by_contra hc
          rw [List.drop_eq_getElem_cons (by omega)] at hdrop
          cases hdrop
        rw [List.drop_eq_nil_of_le (by omega : rs.length ≤ i + 1)]
        simp
      | cons v rest =>
        have hi : i < rs.length := by
          by_contra hc
          rw [List.drop_eq_nil_of_le (by omega)] at hdrop
          cases hdrop
        have hcons : rs.drop i = rs[i] :: rs.drop (i + 1) :=
          List.drop_eq_getElem_cons hi
        rw [hdrop] at hcons
        obtain ⟨hv, hrest⟩ := List.cons.inj hcons
        rw [hrest]
        simp [tokenAccepts]
    · have hw' : isWild t = false := by
        revert hw; cases isWild t <;> simp
      have hi : i < rs.length := by
        have := h 0 (by simp) (by simpa using hw')
        omega
      have hv : rs[i]? = some rs[i] := List.getElem?_eq_getElem hi
      have hdrop : rs.drop i = rs[i] :: rs.drop (i + 1) :=
        List.drop_eq_getElem_cons hi
      rw [branchTest_cons, stepToken_of_get rs i rs[i] hv t, hdrop,
        List.zip_cons_cons, List.all_cons]
      cases hta : tokenAccepts t rs[i] with
      | false => rfl
      | true => exact ih (i + 1) hshift

/-- Under the non-wildcard fit condition, `listTest` never raises and
computes the boolean disjunction of the branch tests. -/
theorem listTest_eq_of_fits (rs : List Label) (pl : ParseList)
    (h : ∀ b ∈ pl, ∀ j, j < b.length → isWild (b.getD j .wild) = false →
      j < rs.length) :
    listTest rs pl =
      some (pl.any fun b => (b.zip rs).all fun p => tokenAccepts p.1 p.2) := by
  induction pl with
  | nil => simp [listTest]
  | cons b bs ih =>
    have hbt := branchTest_eq_of_fits rs b 0 fun j hj hnw => by
      have := h b (List.mem_cons_self b bs) j hj hnw
      omega
    rw [List.drop_zero] at hbt
    rw [listTest_cons, hbt]
    cases hba : (b.zip rs).all fun p => tokenAccepts p.1 p.2 with
    | true => simp [hba]
    | false =>
      simp [hba, ih fun b2 h2 => h b2 (List.mem_cons_of_mem b h2)]

/-- Under the non-wildcard fit condition, the row filter never raises and
agrees with the boolean filter over the table. -/
theorem filterTest_eq_filter_fits (pl : ParseList) (tbl : List (Ident × Nat))
    (h : ∀ r ∈ tbl, ∀ b ∈ pl, ∀ j, j < b.length →
      isWild (b.getD j .wild) = false → j < r.1.length) :
    filterTest pl 0 none tbl =
      some (tbl.filter fun r =>
        pl.any fun b => (b.zip r.1).all fun p => tokenAccepts p.1 p.2) := by
  induction tbl with
  | nil => rfl
  | cons r rs ih =>
    have hst : selectTest r.1 pl 0 none =
        some (pl.any fun b => (b.zip r.1).all fun p => tokenAccepts p.1 p.2) := by
      show listTest (pySlice r.1 0 none) pl = _
      rw [pySlice_zero_none,
        listTest_eq_of_fits r.1 pl (h r (List.mem_cons_self r rs))]
    rw [filterTest_cons, hst, ih fun r2 h2 => h r2 (List.mem_cons_of_mem r h2),
      List.filter_cons]
    cases hval : pl.any fun b => (b.zip r.1).all fun p => tokenAccepts p.1 p.2 with
    | true => simp
    | false => simp

/-- Under the branch-count guard and the non-wildcard fit condition,
`select` returns the filtered table rows. -/
theorem dfSelect_eq_filter_fits (depth : Nat) (tbl : List (Ident × Nat))
    (pl : ParseList) (hbr : pl.length ≤ depth)
    (h : ∀ r ∈ tbl, ∀ b ∈ pl, ∀ j, j < b.length →
      isWild (b.getD j .wild) = false → j < r.1.length) :
    dfSelect depth tbl pl 0 none =
      some (tbl.filter fun r =>
        pl.any fun b => (b.zip r.1).all fun p => tokenAccepts p.1 p.2) := by
  unfold dfSelect
  rw [if_neg (by rw [pySlice_zero_none, List.length_range]; omega)]
  exact filterTest_eq_filter_fits pl tbl h

/-- Claim C6 (amended): a selector containing a wildcard always fails at
table construction (`make_index` rejects any `'*'`); used as a read-time or
write-time query against an existing well-formed table it succeeds,
provided its branch count does not exceed the table's level count and every
non-wildcard matcher in each branch lies at a position inside the
identifier depth (a wildcard matcher beyond the depth is skipped without
reading the row). -/
theorem claim_C6_wildcard (pl : ParseList) (pm : PortMapper)
    (hwild : hasWild pl = true) (hwf : wellFormed pm)
    (hbr : pl.length ≤ pm.depth)
    (hfit : ∀ b ∈ pl, ∀ j, j < b.length →
      isWild (b.getD j .wild) = false → j < pm.depth) :
    makeIndex pl = none ∧ (∃ vs, pmGet pm pl = some vs) ∧
      ∀ v, ∃ pm2, pmSetScalar pm pl v = some pm2 := by
  have hfit2 : ∀ r ∈ pm.portmap, ∀ b ∈ pl, ∀ j, j < b.length →
      isWild (b.getD j .wild) = false → j < r.1.length := by
    intro r hr b hb j hj hnw
    rw [(hwf r hr).1]
    exact hfit b hb j hj hnw
  have hsel := dfSelect_eq_filter_fits pm.depth pm.portmap pl hbr hfit2
  have hres : pmResolve pm pl =
      some ((pm.portmap.filter fun r =>
        pl.any fun b => (b.zip r.1).all fun p => tokenAccepts p.1 p.2).map
          Prod.snd) := by
    unfold pmResolve
    rw [hsel, Option.map_some']
  refine ⟨?_, ?_, ?_⟩
  · cases pl with
    | nil => cases hwild
    | cons b bs =>
      simp only [makeIndex]
      rw [if_pos (by rw [hwild]; simp)]
  · have hbound : ∀ i ∈ (pm.portmap.filter fun r =>
        pl.any fun b => (b.zip r.1).all fun p => tokenAccepts p.1 p.2).map
          Prod.snd, i < pm.data.length := by
      intro i hi
      rw [List.mem_map] at hi
      obtain ⟨r, hr, rfl⟩ := hi
      exact (hwf r (List.mem_of_mem_filter hr)).2
    obtain ⟨vs, hvs⟩ := mapM_getElem_some hbound
    refine ⟨vs, ?_⟩
    unfold pmGet
    rw [hres]
    exact hvs
  · intro v
    have hboundb : ((pm.portmap.filter fun r =>
        pl.any fun b => (b.zip r.1).all fun p => tokenAccepts p.1 p.2).map
          Prod.snd).all (· < pm.data.length) = true := by
      rw [List.all_eq_true]
      intro i hi
      rw [List.mem_map] at hi
      obtain ⟨r, hr, rfl⟩ := hi
      exact decide_eq_true (hwf r (List.mem_of_mem_filter hr)).2
    unfold pmSetScalar
    simp only [hres, hboundb, if_true]
    exact ⟨_, rfl⟩

def c6BadPL : ParseList :=
  [[.wild, .lit (.str "x")], [.wild, .lit (.str "y")], [.wild, .lit (.str "z")]]

def c6PM : PortMapper :=
  ⟨[3, 4], [([.str "a", .str "x"], 0), ([.str "c", .str "y"], 1)], 2⟩

/-- Claim C6 (counterexample): this wildcard-bearing three-branch selector
does fail at construction, but it also fails as a read-time query against a
two-level table (`select`'s branch-count guard raises), refuting the claim
that every wildcard selector succeeds as a query. -/
theorem claim_C6_counterexample :
    hasWild c6BadPL = true ∧ makeIndex c6BadPL = none ∧
      pmGet c6PM c6BadPL = none := by
  refine ⟨by decide, by decide, by decide⟩

def c6GoodPL : ParseList := [[.wild, .lit (.str "x"), .wild]]

theorem claim_C6_wildcard_witness :
    makeIndex c6GoodPL = none ∧ (∃ vs, pmGet c6PM c6GoodPL = some vs) ∧
      ∀ v, ∃ pm2, pmSetScalar c6PM c6GoodPL v = some pm2 :=
  claim_C6_wildcard c6GoodPL c6PM (by decide) (by decide) (by decide) (by decide)

/-- Claim C7 (amended): `get_tuples` fails with its ValueError guard and
yields no partial result whenever the selector's maximum level count
exceeds the level count of the tested sub-range; `select`, however, guards
on the selector's *branch count*: it fails whenever that count exceeds the
sub-range's level count (and a selector whose maximum level count exceeds
the available depth can pass `select`'s guard). -/
theorem claim_C7_depth_guard (depth : Nat) (ids : List Ident)
    (tbl : List (Ident × Nat)) (pl : ParseList) (start : Nat)
    (stop : Option Nat) (m : Nat) (hm : maxLevels pl = some m)
    (hgt : m > (pySlice (List.range depth) start stop).length) :
    getTuples depth ids pl start stop = none ∧
      (pl.length > (pySlice (List.range depth) start stop).length →
        dfSelect depth tbl pl start stop = none) := by
  constructor
  · unfold getTuples
    rw [hm]
    exact if_pos hgt
  · intro hbr
    unfold dfSelect
    rw [if_pos hbr]

def c7PL : ParseList := [[.lit (.str "a"), .wild, .wild]]

def c7Tbl : List (Ident × Nat) :=
  [([.str "a", .str "x"], 0), ([.str "b", .str "y"], 1)]

/-- Claim C7 (counterexample): a one-branch selector of maximum level count
3 queried against a two-level table passes `select`'s guard (which compares
the branch count, 1, with the level count, 2) and returns a non-empty
result instead of failing. -/
theorem claim_C7_counterexample :
    maxLevels c7PL = some 3 ∧ (pySlice (List.range 2) 0 none).length = 2 ∧
      dfSelect 2 c7Tbl c7PL 0 none = some [([.str "a", .str "x"], 0)] := by
  refine ⟨by decide, by decide, by decide⟩

def c7wPL : ParseList :=
  [[.lit (.str "a"), .lit (.str "b")], [.lit (.str "c"), .lit (.str "d")],
   [.lit (.str "e"), .lit (.str "f")]]

theorem claim_C7_depth_guard_witness :
    getTuples 1 [[.str "q"]] c7wPL 0 none = none ∧
      (c7wPL.length > (pySlice (List.range 1) 0 none).length →
        dfSelect 1 [([.str "q"], 0)] c7wPL 0 none = none) :=
  claim_C7_depth_guard 1 [[.str "q"]] [([.str "q"], 0)] c7wPL 0 none 2
    (by decide) (by decide)

/-- Token expansion inside the `.+` handler (`p_selector_dotplus_selector`):
ints and strings are wrapped into singleton lists (the wildcard is an
ordinary string `'*'` there), tuples are replaced by `range(start, stop)` —
which raises when `stop` is `np.inf` — and sets pass through unchanged. -/
def zipTokenElems : Token → Option (List Label)
  | .wild => some [.str "*"]
  | .lit l => some [l]
  | .set ls => some ls
  | .ivl a (some b) => some ((List.range' a (b - a)).map Label.num)
  | .ivl _ none => none

/-- Full expansion of one `.+` operand into flat concrete identifiers: per
branch the cartesian product of its element lists, branches concatenated in
order. -/
def zipExpand (pl : ParseList) : Option (List Ident) :=
  (pl.mapM fun (b : Branch) =>
    (b.mapM zipTokenElems).map branchProduct).map List.flatten

/-- `p_selector_dotplus_selector`: fully expand both operands; if the two
expanded identifier lists have equal length the result is their positionwise
concatenation (a parse list of purely literal branches); unequal lengths
fail the `assert`. -/
def dotplus (p1 p3 : ParseList) : Option ParseList :=
  match zipExpand p1, zipExpand p3 with
  | some xs, some ys =>
    if xs.length = ys.length then
      some (List.zipWith (fun a b => (a ++ b).map Token.lit) xs ys)
    else none
  | _, _ => none

/-- Claim C4: both `.+` operands are fully expanded into flat lists of
concrete identifiers (sets and intervals one entry per literal element); on
equal lengths `n`, the result has exactly the `n` positionwise
concatenations in order; on unequal lengths the parse fails; and the
selector `/[bar,baz].+/[qux,mof].+/[0,0]` expands to exactly the two
identifiers `(bar,qux,0)` and `(baz,mof,0)` — a zip, not a product. -/
theorem claim_C4_zip (p1 p3 : ParseList) (xs ys : List Ident)
    (h1 : zipExpand p1 = some xs) (h3 : zipExpand p3 = some ys) :
    (xs.length = ys.length →
      ∃ r, dotplus p1 p3 = some r ∧ r.length = xs.length ∧
        ∀ i, i < xs.length →
          r[i]? = some ((xs[i]?.getD [] ++ ys[i]?.getD []).map Token.lit)) ∧
      (xs.length ≠ ys.length → dotplus p1 p3 = none) ∧
      (dotplus [[.set [.str "bar", .str "baz"]]]
          [[.set [.str "qux", .str "mof"]]]).bind
        (fun r => dotplus r [[.set [.num 0, .num 0]]]) =
        some [[.lit (.str "bar"), .lit (.str "qux"), .lit (.num 0)],
              [.lit (.str "baz"), .lit (.str "mof"), .lit (.num 0)]] := by
  have hd : dotplus p1 p3 = if xs.length = ys.length then
      some (List.zipWith (fun a b => (a ++ b).map Token.lit) xs ys)
    else none := by
    simp only [dotplus, h1, h3]
  refine ⟨?_, ?_, by decide⟩
  · intro heq
    rw [hd, if_pos heq]
    refine ⟨_, rfl, ?_, ?_⟩
    · rw [List.length_zipWith]
      omega
    · intro i hi
      have hiy : i < ys.length := by omega
      simp only [List.getElem?_zipWith, List.getElem?_eq_getElem hi,
        List.getElem?_eq_getElem hiy, Option.getD_some]
  · intro hne
    rw [hd, if_neg hne]

theorem claim_C4_zip_witness :
    ((([[.str "a"]] : List Ident).length = ([[.num 0]] : List Ident).length →
      ∃ r, dotplus [[.lit (.str "a")]] [[.lit (.num 0)]] = some r ∧
        r.length = ([[.str "a"]] : List Ident).length ∧
        ∀ i, i < ([[.str "a"]] : List Ident).length →
          r[i]? = some ((([[.str "a"]] : List Ident)[i]?.getD [] ++
            ([[.num 0]] : List Ident)[i]?.getD []).map Token.lit)) ∧
      (([[.str "a"]] : List Ident).length ≠ ([[.num 0]] : List Ident).length →
        dotplus [[.lit (.str "a")]] [[.lit (.num 0)]] = none) ∧
      (dotplus [[.set [.str "bar", .str "baz"]]]
          [[.set [.str "qux", .str "mof"]]]).bind
        (fun r => dotplus r [[.set [.num 0, .num 0]]]) =
        some [[.lit (.str "bar"), .lit (.str "qux"), .lit (.num 0)],
              [.lit (.str "baz"), .lit (.str "mof"), .lit (.num 0)]]) :=
  claim_C4_zip [[.lit (.str "a")]] [[.lit (.num 0)]] [[.str "a"]] [[.num 0]]
    (by decide) (by decide)

/-- Python exception kinds raised by the modelled code paths. -/
inductive PyErr where
  | nameErr (n : String)
  | attrErr (meth : String)
  | assertErr
  | valueErr
  deriving DecidableEq, Repr

/-- Names bound at module scope in `core.py` (imports and definitions).
`PORT_TIME`, referenced by `Module.__init__`'s default parameter list, is
not among them: `base` exports only `PORT_DATA` and `PORT_CTRL` here. -/
def coreGlobalNames : List String :=
  ["atexit", "collections", "np", "time", "drv", "gpuarray", "twiggy",
   "bidict", "BaseModule", "BaseManager", "Broker", "PORT_DATA", "PORT_CTRL",
   "setup_logger", "IgnoreKeyboardInterrupt", "OnKeyboardInterrupt",
   "ExceptionOnSignal", "TryExceptionOnSignal", "get_random_port",
   "catch_exception", "uid", "Interface", "Pattern", "PathLikeSelector",
   "PortMapper", "Module", "Manager"]

/-- Methods defined on the class `PathLikeSelector` in `plsel.py`. -/
def pathLikeSelectorMethods : List String :=
  ["__init__", "_parse_interval_str", "t_PLUS", "t_DOTPLUS", "t_COMMA",
   "t_LPAREN", "t_RPAREN", "t_ASTERISK", "t_INTEGER", "t_INTEGER_SET",
   "t_INTERVAL", "t_STRING", "t_STRING_SET", "t_error",
   "p_selector_paren_selector", "p_selector_comma_selector",
   "p_selector_plus_selector", "p_selector_dotplus_selector",
   "p_selector_selector_plus_level", "p_selector_selector_level",
   "p_selector_level", "p_level", "p_error", "_setup", "tokenize", "parse",
   "isdisjoint_interval", "isdisjoint", "max_levels", "_select_test",
   "get_tuples", "get_index", "make_index", "select"]

/-- Resolution of a global name in `core.py`'s namespace. -/
def coreLookup (n : String) : Except PyErr Unit :=
  if n ∈ coreGlobalNames then .ok () else .error (.nameErr n)

/-- Attribute access `PathLikeSelector.<meth>`. -/
def pathLikeSelectorAttr (meth : String) : Except PyErr Unit :=
  if meth ∈ pathLikeSelectorMethods then .ok () else .error (.attrErr meth)

/-- A Python value passed as the first `PortMapper.__init__` argument:
`np.ndim` is 1 only for a one-dimensional array; a selector string has
`ndim` 0 and is not an `ndarray`. -/
inductive PyVal where
  | pystr (s : String)
  | arr1d (l : List Int)
  deriving DecidableEq, Repr

def npNdim : PyVal → Nat
  | .pystr _ => 0
  | .arr1d _ => 1

def isNdarray : PyVal → Bool
  | .pystr _ => false
  | .arr1d _ => true

/-- The two leading assertions of `PortMapper.__init__` on its first
argument `data`. -/
def portMapperCheckData (v : PyVal) : Except PyErr Unit :=
  if npNdim v = 1 ∧ isNdarray v = true then .ok () else .error .assertErr

/-- Arguments of `core.Module.__init__` (defaults omitted). -/
structure ModuleArgs where
  selector : ParseList
  selGpot : String
  selSpike : String
  dataGpot : List Int
  dataSpike : List Int
  columns : List String
  portData : Nat
  portCtrl : Nat

/-- Shallow model of constructing `core.Module`: Python evaluates the
default parameter list first, which references the undefined global
`PORT_TIME`; were it defined, the body would next require the attribute
columns, then call the nonexistent class methods `PathLikeSelector.is_in`
and `PathLikeSelector.are_disjoint`, and then call
`PortMapper(sel_gpot, data_gpot)`, whose first argument — a selector
string — fails the one-dimensional-`ndarray` assertion. -/
def moduleInit (args : ModuleArgs) : Except PyErr Unit := do
  coreLookup "PORT_TIME"
  if ("interface" ∈ args.columns ∧ "io" ∈ args.columns ∧
      "type" ∈ args.columns) then pure () else throw .assertErr
  if args.portData = args.portCtrl then throw .valueErr
  pathLikeSelectorAttr "is_in"
  pathLikeSelectorAttr "are_disjoint"
  portMapperCheckData (.pystr args.selGpot)
  portMapperCheckData (.pystr args.selSpike)

/-- Claim C3: every attempt to construct a `core.Module` raises before a
usable module exists: the default parameter list references the undefined
name `PORT_TIME`; independently, `PathLikeSelector.is_in` and
`PathLikeSelector.are_disjoint` do not exist on that class; and the
`(selector, data)` argument order passed to `PortMapper` puts a
non-`ndarray` selector string where a one-dimensional array is asserted. -/
theorem claim_C3_module_init_raises :
    (∀ args : ModuleArgs, moduleInit args = .error (.nameErr "PORT_TIME")) ∧
      "is_in" ∉ pathLikeSelectorMethods ∧
      "are_disjoint" ∉ pathLikeSelectorMethods ∧
      ∀ s, portMapperCheckData (.pystr s) = .error .assertErr := by
  refine ⟨?_, by decide, by decide, ?_⟩
  · intro args
    rfl
  · intro s
    rfl

/-- Names bound at module scope in `plsel.py`; the bare name `p` used by
`isdisjoint` (line `p0 = p.parse(s0)`) is not among them. -/
def plselGlobalNames : List String :=
  ["itertools", "re", "np", "pd", "lex", "yacc", "PathLikeSelector",
   "PortMapper"]

/-- Resolution of a global name in `plsel.py`'s namespace. -/
def plselLookup (n : String) : Except PyErr Unit :=
  if n ∈ plselGlobalNames then .ok () else .error (.nameErr n)

/-- Shallow model of `PathLikeSelector.isdisjoint(s0, s1)` over the raw
selector strings: assert that neither contains `'*'`, then resolve the
undefined bare name `p` before any level comparison; were `p` defined, the
remaining body is unfinished (`# unfinished`) and falls off the end,
returning Python `None` (modelled as `.ok none`) rather than a boolean. -/
def isdisjointRun (s0 s1 : List Char) : Except PyErr (Option Bool) := do
  if ('*' ∈ s0) || ('*' ∈ s1) then throw .assertErr
  plselLookup "p"
  pure none

/-- Claim C10: for every pair of wildcard-free selector strings (the
documented precondition), `isdisjoint` never returns the documented
boolean: it raises `NameError` on the undefined name `p` before comparing
any levels (and even past that, its unfinished body would return `None`,
not a boolean). -/
theorem claim_C10_isdisjoint_broken (s0 s1 : List Char)
    (h0 : '*' ∉ s0) (h1 : '*' ∉ s1) :
    isdisjointRun s0 s1 = .error (.nameErr "p") ∧
      ∀ b : Bool, isdisjointRun s0 s1 ≠ .ok (some b) := by
  have hrun : isdisjointRun s0 s1 = .error (.nameErr "p") := by
    unfold isdisjointRun
    rw [if_neg (by simp [h0, h1])]
    rfl
  exact ⟨hrun, fun b hb => by rw [hrun] at hb; cases hb⟩

theorem claim_C10_isdisjoint_broken_witness :
    isdisjointRun ['/', 'a'] ['/', 'b'] = .error (.nameErr "p") ∧
      ∀ b : Bool, isdisjointRun ['/', 'a'] ['/', 'b'] ≠ .ok (some b) :=
  claim_C10_isdisjoint_broken ['/', 'a'] ['/', 'b'] (by decide) (by decide)

/-- Modelled from the spec: `PortMapper.get_ports_nonzero`, called by
`core.Module._put_out_data` but absent from `plsel.py`; per the Port Mapper
contract (`nonzero_positions`) it denotes the ports whose current buffer
value is non-zero. -/
def getPortsNonzero (portmap : List (Ident × Nat)) (data : List Int) :
    List Ident :=
  (portmap.filter fun r => data.getD r.2 0 != 0).map Prod.fst

/-- State read by `Module._put_out_data`: the destination module ids, the
two port buffers, the spike port table, the per-destination dictionaries
precomputed by `_init_port_dicts`, and the external collaborators.
`destIdx` (`Pattern.dest_idx`) and `portsToInds`
(`pat.interface.spike_pm(to_int).ports_to_inds`) are modelled from the spec
as opaque translation maps into the destination's own numeric indices,
their defining module (`pattern.py`) not being part of the source tree. -/
structure OutState where
  outIds : List String
  gpotData : List Int
  spikeData : List Int
  spikePortmap : List (Ident × Nat)
  outPortIdsGpot : String → List Nat
  outPortsSpike : String → List Ident
  destIdx : String → List Ident → List Ident
  portsToInds : String → List Ident → List Nat

/-- `Module._put_out_data`: clear the outgoing buffer, then for each
destination select the graded-potential values at the wired positions,
intersect the wired spiking ports with the currently spiking ports
(the Python `set.intersection` is modelled as a filter of the wired list),
translate the intersection through the pattern collaborators, and stage
`(destination_id, (gpot_values, spike_indices))`. -/
def putOutData (st : OutState) : List (String × (List Int × List Nat)) :=
  st.outIds.map fun out_id =>
    let gpotVals := (st.outPortIdsGpot out_id).map fun i => st.gpotData.getD i 0
    let wired := st.outPortsSpike out_id
    let spiking := getPortsNonzero st.spikePortmap st.spikeData
    let outSpike := wired.filter (· ∈ spiking)
    (out_id, (gpotVals, st.portsToInds out_id (st.destIdx out_id outSpike)))

/-- Claim C9: in the output phase, for every destination module the staged
spike data is exactly the translation (through the connectivity
collaborators) of the intersection of the spike ports wired to that
destination with the ports whose spike-buffer value is nonzero, staged in
the pair `(destination_id, (graded_values, destination_spike_indices))`. -/
theorem claim_C9_output_phase (st : OutState) (out_id : String)
    (h : out_id ∈ st.outIds) :
    ∃ S : List Ident,
      (∀ p, p ∈ S ↔ p ∈ st.outPortsSpike out_id ∧
        ∃ r ∈ st.spikePortmap, r.1 = p ∧ st.spikeData.getD r.2 0 ≠ 0) ∧
      (out_id, ((st.outPortIdsGpot out_id).map fun i => st.gpotData.getD i 0,
        st.portsToInds out_id (st.destIdx out_id S))) ∈ putOutData st := by
  refine ⟨(st.outPortsSpike out_id).filter
    (· ∈ getPortsNonzero st.spikePortmap st.spikeData), ?_, ?_⟩
  · intro p
    rw [List.mem_filter]
    constructor
    · rintro ⟨hw, hnz⟩
      rw [decide_eq_true_eq] at hnz
      unfold getPortsNonzero at hnz
      rw [List.mem_map] at hnz
      obtain ⟨r, hr, rfl⟩ := hnz
      rw [List.mem_filter] at hr
      refine ⟨hw, r, hr.1, rfl, ?_⟩
      have := hr.2
      rw [bne_iff_ne] at this
      exact this
    · rintro ⟨hw, r, hr, rfl, hnz⟩
      refine ⟨hw, ?_⟩
      rw [decide_eq_true_eq]
      unfold getPortsNonzero
      rw [List.mem_map]
      refine ⟨r, ?_, rfl⟩
      rw [List.mem_filter]
      exact ⟨hr, by rw [bne_iff_ne]; exact hnz⟩
  · unfold putOutData
    rw [List.mem_map]
    exact ⟨out_id, h, rfl⟩

def c9State : OutState :=
  ⟨["m2"], [3, 5], [0, 1], [([.str "s", .num 0], 0), ([.str "s", .num 1], 1)],
   fun _ => [0, 1], fun _ => [[.str "s", .num 0], [.str "s", .num 1]],
   fun _ l => l, fun _ l => l.map List.length⟩

theorem claim_C9_output_phase_witness :
    ∃ S : List Ident,
      (∀ p, p ∈ S ↔ p ∈ c9State.outPortsSpike "m2" ∧
        ∃ r ∈ c9State.spikePortmap, r.1 = p ∧
          c9State.spikeData.getD r.2 0 ≠ 0) ∧
      (("m2" : String),
        (((c9State.outPortIdsGpot "m2").map fun i => c9State.gpotData.getD i 0),
          c9State.portsToInds "m2" (c9State.destIdx "m2" S))) ∈
        putOutData c9State :=
  claim_C9_output_phase c9State "m2" (by decide)

end Neurokernel
